import Mathlib

/-!
Shallow embedding of the contour-tracing core of `bin/others/extract_contours.py`
(the per-slice Path Orderer): `__dist`, `__find_nearest`, `__draw_line`, and the
greedy tour loop of `main` (lines 119-132), together with the empty-contour skip
(lines 115-117).

Modelling conventions:
* A point is its list of coordinates (`List ℚ`).  Contour points extracted from
  the mask are integer-valued; interpolated points are produced by dividing by
  `divider = 2`, so all arithmetic performed by the script on realistic inputs
  is exact in binary floating point and is modelled exactly by `ℚ`.
* `__dist` computes `math.sqrt((p1[0]-p2[0])**2 + (p1[1]-p2[1])**2)` and the
  script only ever *compares* such values (`dist < distance`,
  `distance > math.sqrt(8)`); the real square root is strictly monotone on
  nonnegative reals, so every comparison of distances equals the comparison of
  their squares.  We therefore model distances by their squares (`dist2`),
  with the initialiser `distance = 10000000` becoming `10000000 ^ 2` and the
  threshold `math.sqrt 8` becoming `8`.
* `__find_nearest` returns either an index or Python's `False`; we model the
  returned value as `Option ℕ` with `none` for `False`.  The call site compares
  the result against `False` with `==`, and in Python `False == 0` holds, so
  the loop's break test is modelled by `pyEqFalse`, which is true on `some 0`
  as well as on `none` - exactly Python's behaviour.
* The `while point:` loop guard is Python truthiness of the list `point`,
  i.e. the loop body is entered only when `point` is a nonempty list.
* The loop is embedded with explicit fuel; every theorem below is either
  fuel-generic (proved for all fuel values by induction) or evaluated on
  concrete inputs where the supplied fuel `contour.length + 1` is plainly
  sufficient.
-/

namespace ExtractContours

/-- A point is its list of coordinates, as in the script where a contour point
is the list `[x, y, z, ...]` built from the nonzero positions. -/
abbrev Point := List ℚ

/-- Coordinate access `p[i]`.  The script indexes only positions 0 and 1, which
exist for every contour point of a (at least 2-dimensional) slice; out-of-range
access defaults to 0 in the model. -/
def coord (p : Point) (i : ℕ) : ℚ := p.getD i 0

/-- The interpolation subdivision constant `divider = 2` of `main`. -/
def divider : ℕ := 2

/-- Square of `__dist(p1, p2)`: the script computes
`math.sqrt(math.pow(p1[0]-p2[0], 2) + math.pow(p1[1]-p2[1], 2))`; we model the
square, see the header comment. -/
def dist2 (p1 p2 : Point) : ℚ :=
  (coord p1 0 - coord p2 0) ^ 2 + (coord p1 1 - coord p2 1) ^ 2

/-- `__draw_line(p1, p2, divider)`:
`delta_x = (p1[0] - p2[0]) / float(divider)`,
`delta_y = (p1[1] - p2[1]) / float(divider)`, and the returned list is
`[(p1[0] + delta_x * i, p1[1] + delta_y * i) for i in range(1, divider + 1)]`.
Note the deltas point from `p2` towards `p1`. -/
def draw_line (p1 p2 : Point) (d : ℕ) : List Point :=
  let delta_x : ℚ := (coord p1 0 - coord p2 0) / (d : ℚ)
  let delta_y : ℚ := (coord p1 1 - coord p2 1) / (d : ℚ)
  (List.range d).map fun (i : ℕ) =>
    [coord p1 0 + delta_x * ((i : ℚ) + 1), coord p1 1 + delta_y * ((i : ℚ) + 1)]

/-- The `for pos, p in enumerate(contour)` loop of `__find_nearest`, carrying
the accumulator `(nearest, distance)` with `none` for the initial
`nearest = False`; `pos` is the index of the head of the remaining list. -/
def find_nearest_go (point : Point) (processed : List ℕ) :
    List Point → ℕ → Option ℕ × ℚ → Option ℕ × ℚ
  | [], _, acc => acc
  | p :: rest, pos, acc =>
    if pos ∈ processed then
      find_nearest_go point processed rest (pos + 1) acc
    else if dist2 point p < acc.2 then
      find_nearest_go point processed rest (pos + 1) (some pos, dist2 point p)
    else
      find_nearest_go point processed rest (pos + 1) acc

/-- `__find_nearest(point, contour, processed)`: scan with
`nearest = False; distance = 10000000`, then
`if distance > math.sqrt(8): return False` and otherwise `return nearest`
(squares throughout, see header). -/
def find_nearest (point : Point) (contour : List Point) (processed : List ℕ) :
    Option ℕ :=
  let r := find_nearest_go point processed contour 0 (none, 10000000 ^ 2)
  if 8 < r.2 then none else r.1

/-- Python's `False == nearest_pos` test of `main`: true when the result is the
sentinel `False` (`none`), but also when it is the integer 0, since in Python
`False == 0`. -/
def pyEqFalse : Option ℕ → Bool
  | none => true
  | some n => n == 0

/-- The mutable state of the tour loop of `main`: `contour_final` (`path`),
`point`, and `processed`. -/
structure LoopState where
  path : List Point
  point : Point
  processed : List ℕ
  deriving DecidableEq

/-- The `while point:` loop of `main` (lines 124-129), with fuel:
find the nearest unprocessed index, break when the result `== False`, else
extend `contour_final` with `__draw_line(point, contour[nearest_pos], divider)`,
append `nearest_pos` to `processed` and move `point`. -/
def trace_loop (contour : List Point) : ℕ → LoopState → LoopState
  | 0, s => s
  | fuel + 1, s =>
    if s.point.isEmpty then s
    else
      let r := find_nearest s.point contour s.processed
      if pyEqFalse r then s
      else
        let j := r.getD 0
        trace_loop contour fuel
          ⟨s.path ++ draw_line s.point (contour.getD j []) divider,
           contour.getD j [], s.processed ++ [j]⟩

/-- The loop's initial state (lines 120-123): `point = contour[0]`,
`processed = [0]`, `contour_final = []`. -/
def init_state (contour : List Point) : LoopState :=
  ⟨[], contour.getD 0 [], [0]⟩

/-- Run the tour loop to completion.  `contour.length + 1` units of fuel
suffice: each iteration either breaks or appends a fresh unprocessed index. -/
def run_loop (contour : List Point) : LoopState :=
  trace_loop contour (contour.length + 1) (init_state contour)

/-- The whole per-slice path construction of `main` (lines 115-132): skip an
empty contour (`none` models the `continue` on the `EmptyBoundary` condition),
otherwise run the tour loop and unconditionally append the closing segment
`__draw_line(point, contour[0], divider)`. -/
def extract_contour (contour : List Point) : Option (List Point) :=
  if contour.length = 0 then none
  else
    some ((run_loop contour).path ++
      draw_line (run_loop contour).point (contour.getD 0 []) divider)

/-! ### Properties of the `__find_nearest` scan -/

lemma go_snd_le (point : Point) (processed : List ℕ) :
    ∀ (l : List Point) (pos : ℕ) (acc : Option ℕ × ℚ),
      (find_nearest_go point processed l pos acc).2 ≤ acc.2 := by
  intro l
  induction l with
  | nil => intro pos acc; simp [find_nearest_go]
  | cons p rest ih =>
    intro pos acc
    simp only [find_nearest_go]
    split
    · exact ih _ _
    · split
      · exact le_trans (ih _ _) (le_of_lt (by assumption))
      · exact ih _ _

lemma go_min_le (point : Point) (processed : List ℕ) :
    ∀ (l : List Point) (pos : ℕ) (acc : Option ℕ × ℚ) (i : ℕ),
      i < l.length → (pos + i) ∉ processed →
      (find_nearest_go point processed l pos acc).2 ≤ dist2 point (l.getD i []) := by
  intro l
  induction l with
  | nil => intro pos acc i hi; simp at hi
  | cons p rest ih =>
    intro pos acc i hi hnp
    simp only [find_nearest_go]
    cases i with
    | zero =>
      rw [if_neg (by simpa using hnp)]
      simp only [List.getD_cons_zero]
      split
      · exact go_snd_le point processed rest (pos + 1) _
      · exact le_trans (go_snd_le point processed rest (pos + 1) _)
          (le_of_not_lt (by assumption))
    | succ i' =>
      have harith : pos + 1 + i' = pos + (i' + 1) := by omega
      have hi' : i' < rest.length := by
        simpa [Nat.succ_lt_succ_iff] using hi
      have hnp' : pos + 1 + i' ∉ processed := by rw [harith]; exact hnp
      simp only [List.getD_cons_succ]
      split
      · exact ih (pos + 1) acc i' hi' hnp'
      · split
        · exact ih (pos + 1) _ i' hi' hnp'
        · exact ih (pos + 1) acc i' hi' hnp'

lemma go_origin (point : Point) (processed : List ℕ) :
    ∀ (l : List Point) (pos : ℕ) (acc : Option ℕ × ℚ),
      find_nearest_go point processed l pos acc = acc ∨
      ∃ i, i < l.length ∧ (pos + i) ∉ processed ∧
        find_nearest_go point processed l pos acc =
          (some (pos + i), dist2 point (l.getD i [])) ∧
        dist2 point (l.getD i []) < acc.2 := by
  intro l
  induction l with
  | nil => intro pos acc; left; simp [find_nearest_go]
  | cons p rest ih =>
    intro pos acc
    simp only [find_nearest_go]
    by_cases hmem : pos ∈ processed
    · rw [if_pos hmem]
      rcases ih (pos + 1) acc with h | ⟨i, hi, hnp, heq, hlt⟩
      · left; exact h
      · right
        refine ⟨i + 1, by simpa using Nat.succ_lt_succ hi, ?_, ?_, ?_⟩
        · have : pos + (i + 1) = pos + 1 + i := by omega
          rw [this]; exact hnp
        · have : pos + (i + 1) = pos + 1 + i := by omega
          rw [List.getD_cons_succ, this]; exact heq
        · rw [List.getD_cons_succ]; exact hlt
    · rw [if_neg hmem]
      by_cases hd : dist2 point p < acc.2
      · rw [if_pos hd]
        rcases ih (pos + 1) (some pos, dist2 point p) with h | ⟨i, hi, hnp, heq, hlt⟩
        · right
          exact ⟨0, by simp, by simpa using hmem, by simpa using h, by simpa using hd⟩
        · right
          refine ⟨i + 1, by simpa using Nat.succ_lt_succ hi, ?_, ?_, ?_⟩
          · have : pos + (i + 1) = pos + 1 + i := by omega
            rw [this]; exact hnp
          · have : pos + (i + 1) = pos + 1 + i := by omega
            rw [List.getD_cons_succ, this]; exact heq
          · rw [List.getD_cons_succ]; exact lt_trans hlt hd
      · rw [if_neg hd]
        rcases ih (pos + 1) acc with h | ⟨i, hi, hnp, heq, hlt⟩
        · left; exact h
        · right
          refine ⟨i + 1, by simpa using Nat.succ_lt_succ hi, ?_, ?_, ?_⟩
          · have : pos + (i + 1) = pos + 1 + i := by omega
            rw [this]; exact hnp
          · have : pos + (i + 1) = pos + 1 + i := by omega
            rw [List.getD_cons_succ, this]; exact heq
          · rw [List.getD_cons_succ]; exact hlt

lemma go_least (point : Point) (processed : List ℕ) :
    ∀ (l : List Point) (pos : ℕ) (acc : Option ℕ × ℚ),
      (∀ k, acc.1 = some k → k < pos) →
      ∀ j, (find_nearest_go point processed l pos acc).1 = some j →
      ∀ i, i < l.length → (pos + i) ∉ processed → pos + i < j →
        (find_nearest_go point processed l pos acc).2 < dist2 point (l.getD i []) := by
  intro l
  induction l with
  | nil => intro pos acc hacc j hj i hi; simp at hi
  | cons p rest ih =>
    intro pos acc hacc j hj i hi hnp hlt
    simp only [find_nearest_go] at hj ⊢
    by_cases hmem : pos ∈ processed
    · rw [if_pos hmem] at hj ⊢
      cases i with
      | zero => exact absurd hmem (by simpa using hnp)
      | succ i' =>
        have harith : pos + 1 + i' = pos + (i' + 1) := by omega
        rw [List.getD_cons_succ]
        exact ih (pos + 1) acc (fun k hk => Nat.lt_succ_of_lt (hacc k hk)) j hj i'
          (by simpa [Nat.succ_lt_succ_iff] using hi)
          (by rw [harith]; exact hnp) (by omega)
    · rw [if_neg hmem] at hj ⊢
      by_cases hd : dist2 point p < acc.2
      · rw [if_pos hd] at hj ⊢
        have hacc' : ∀ k, (some pos, dist2 point p).1 = some k → k < pos + 1 := by
          intro k hk
          simp only [Option.some.injEq] at hk
          omega
        cases i with
        | zero =>
          rw [List.getD_cons_zero]
          rcases go_origin point processed rest (pos + 1)
              (some pos, dist2 point p) with h | ⟨i', _, _, heq, hlt'⟩
          · rw [h] at hj
            simp only [Option.some.injEq] at hj
            omega
          · rw [heq]; simpa using hlt'
        | succ i' =>
          have harith : pos + 1 + i' = pos + (i' + 1) := by omega
          rw [List.getD_cons_succ]
          exact ih (pos + 1) _ hacc' j hj i'
            (by simpa [Nat.succ_lt_succ_iff] using hi)
            (by rw [harith]; exact hnp) (by omega)
      · rw [if_neg hd] at hj ⊢
        cases i with
        | zero =>
          rw [List.getD_cons_zero]
          rcases go_origin point processed rest (pos + 1) acc with h | ⟨i', _, _, heq, hlt'⟩
          · rw [h] at hj
            have := hacc j hj
            omega
          · rw [heq]
            exact lt_of_lt_of_le hlt' (le_of_not_lt hd)
        | succ i' =>
          have harith : pos + 1 + i' = pos + (i' + 1) := by omega
          rw [List.getD_cons_succ]
          exact ih (pos + 1) acc (fun k hk => Nat.lt_succ_of_lt (hacc k hk)) j hj i'
            (by simpa [Nat.succ_lt_succ_iff] using hi)
            (by rw [harith]; exact hnp) (by omega)

/-- Full characterisation of a successful `__find_nearest` call: the returned
index is in range, unprocessed, within the squared threshold 8, of minimal
squared distance among unprocessed indices, and the least such index on ties. -/
lemma find_nearest_spec {point : Point} {c : List Point} {pr : List ℕ} {j : ℕ}
    (h : find_nearest point c pr = some j) :
    j < c.length ∧ j ∉ pr ∧ dist2 point (c.getD j []) ≤ 8 ∧
    (∀ k, k < c.length → k ∉ pr →
      dist2 point (c.getD j []) ≤ dist2 point (c.getD k [])) ∧
    (∀ k, k < j → k ∉ pr →
      dist2 point (c.getD j []) < dist2 point (c.getD k [])) := by
  unfold find_nearest at h
  simp only at h
  by_cases h8 : 8 < (find_nearest_go point pr c 0 (none, 10000000 ^ 2)).2
  · rw [if_pos h8] at h; exact absurd h (by simp)
  · rw [if_neg h8] at h
    rcases go_origin point pr c 0 (none, 10000000 ^ 2) with heq | ⟨i, hi, hnp, heq, _⟩
    · rw [heq] at h; exact absurd h (by simp)
    · have hji : j = i := by
        rw [heq] at h
        simpa using h.symm
      subst hji
      have hr2 : (find_nearest_go point pr c 0 (none, 10000000 ^ 2)).2 =
          dist2 point (c.getD j []) := by rw [heq]
      refine ⟨hi, by simpa using hnp, ?_, ?_, ?_⟩
      · rw [← hr2]; exact le_of_not_lt h8
      · intro k hk hknp
        rw [← hr2]
        exact go_min_le point pr c 0 _ k hk (by simpa using hknp)
      · intro k hk hknp
        rw [← hr2]
        have := go_least point pr c 0 (none, 10000000 ^ 2) (by simp) j
          (by rw [heq]; simp) k (by omega) (by simpa using hknp) (by simpa using hk)
        simpa using this

/-! ### Invariants of the tour loop -/

/-- Every property preserved by a successful loop iteration holds of the final
loop state.  A successful iteration extends the path by one drawn segment,
moves `point` to the selected contour point, and appends its index to
`processed`. -/
lemma trace_loop_inv (c : List Point) (P : LoopState → Prop)
    (hstep : ∀ s j, P s → s.point.isEmpty = false →
      find_nearest s.point c s.processed = some j → j ≠ 0 →
      P ⟨s.path ++ draw_line s.point (c.getD j []) divider, c.getD j [],
         s.processed ++ [j]⟩) :
    ∀ fuel s, P s → P (trace_loop c fuel s) := by
  intro fuel
  induction fuel with
  | zero => intro s hs; exact hs
  | succ n ih =>
    intro s hs
    simp only [trace_loop]
    by_cases hemp : s.point.isEmpty
    · rw [if_pos hemp]; exact hs
    · rw [if_neg hemp]
      cases hr : find_nearest s.point c s.processed with
      | none => simpa [pyEqFalse] using hs
      | some j =>
        by_cases hj : j = 0
        · simpa [pyEqFalse, hj] using hs
        · have hP := hstep s j hs (by simpa using hemp) hr hj
          simpa [pyEqFalse, hj] using ih _ hP

lemma draw_line_length (p1 p2 : Point) (d : ℕ) : (draw_line p1 p2 d).length = d := by
  simp only [draw_line, List.length_map, List.length_range]

lemma draw_line_mem {p1 p2 : Point} {d : ℕ} {q : Point}
    (h : q ∈ draw_line p1 p2 d) : q.length = 2 := by
  simp only [draw_line, List.mem_map, List.mem_range] at h
  obtain ⟨i, -, rfl⟩ := h
  rfl

/-- The combined state invariant: the `processed` list records, in order, the
indices of the tour nodes; `point` is the contour point of the last of them;
all of them are in range, pairwise hops have squared distance at most 8, and
index 0 is among them. -/
def StateInv (c : List Point) (s : LoopState) : Prop :=
  (∃ i, s.processed.getLast? = some i ∧ s.point = c.getD i []) ∧
  (c ≠ [] → ∀ i ∈ s.processed, i < c.length) ∧
  List.Chain' (fun i j => dist2 (c.getD i []) (c.getD j []) ≤ 8) s.processed ∧
  0 ∈ s.processed ∧
  (∀ p ∈ s.path, p.length = 2)

lemma stateInv_init (c : List Point) : StateInv c (init_state c) := by
  refine ⟨⟨0, rfl, rfl⟩, fun hc i hi => ?_, ?_, by simp [init_state], by simp [init_state]⟩
  · have : i = 0 := by simpa [init_state] using hi
    subst this
    exact List.length_pos.mpr hc
  · exact List.chain'_singleton 0

lemma stateInv_run_loop (c : List Point) : StateInv c (run_loop c) := by
  refine trace_loop_inv c (StateInv c) ?_ _ _ (stateInv_init c)
  rintro s j ⟨⟨i, hlast, hpt⟩, hrange, hchain, h0, hlen⟩ hemp hfn hj
  obtain ⟨hjlt, hjnp, hjd, -, -⟩ := find_nearest_spec hfn
  refine ⟨⟨j, List.getLast?_concat _, rfl⟩, ?_, ?_, ?_, ?_⟩
  · intro hc k hk
    rcases List.mem_append.mp hk with hk | hk
    · exact hrange hc k hk
    · have : k = j := by simpa using hk
      exact this ▸ hjlt
  · rw [List.chain'_append]
    refine ⟨hchain, List.chain'_singleton j, ?_⟩
    intro x hx y hy
    have hxi : i = x := by rw [hlast] at hx; simpa using hx
    have hyj : j = y := by simpa using hy
    rw [← hxi, ← hyj, ← hpt]
    exact hjd
  · exact List.mem_append.mpr (Or.inl h0)
  · intro p hp
    rcases List.mem_append.mp hp with hp | hp
    · exact hlen p hp
    · exact draw_line_mem hp

/-- Every index the tour ever visits lies in any "cluster" `C0` that contains
index 0 and is separated from its complement by squared distance more than 8. -/
lemma run_loop_cluster (c : List Point) (C0 : ℕ → Bool) (hc : c ≠ [])
    (h0 : C0 0 = true)
    (hsep : ∀ i, i < c.length → ∀ j, j < c.length → C0 i = true → C0 j = false →
      8 < dist2 (c.getD i []) (c.getD j [])) :
    ∀ i ∈ (run_loop c).processed, C0 i = true := by
  have main := trace_loop_inv c
    (fun s => (∀ i ∈ s.processed, C0 i = true) ∧
              (∀ i ∈ s.processed, i < c.length) ∧
              ∃ i, s.processed.getLast? = some i ∧ s.point = c.getD i [])
    ?_ (c.length + 1) (init_state c)
    ⟨by simpa [init_state] using h0,
     by simpa [init_state] using List.length_pos.mpr hc,
     ⟨0, rfl, rfl⟩⟩
  · exact main.1
  · rintro s j ⟨hC, hlt, i, hlast, hpt⟩ hemp hfn hj
    obtain ⟨hjlt, hjnp, hjd, -, -⟩ := find_nearest_spec hfn
    have himem : i ∈ s.processed := List.mem_of_mem_getLast? (by simp [hlast])
    have hjC : C0 j = true := by
      by_contra hjC
      have hjF : C0 j = false := by simpa using hjC
      have hgt := hsep i (hlt i himem) j hjlt (hC i himem) hjF
      rw [← hpt] at hgt
      exact absurd hjd (not_le.mpr hgt)
    refine ⟨?_, ?_, j, List.getLast?_concat _, rfl⟩
    · intro k hk
      rcases List.mem_append.mp hk with hk | hk
      · exact hC k hk
      · have : k = j := by simpa using hk
        exact this ▸ hjC
    · intro k hk
      rcases List.mem_append.mp hk with hk | hk
      · exact hlt k hk
      · have : k = j := by simpa using hk
        exact this ▸ hjlt

/-! ### Only the first two coordinates of any point are ever read -/

lemma coord_take_two (l : List ℚ) :
    coord (l.take 2) 0 = coord l 0 ∧ coord (l.take 2) 1 = coord l 1 := by
  rcases l with _ | ⟨a, _ | ⟨b, t⟩⟩ <;> simp [coord]

lemma dist2_take_two (p q : List ℚ) : dist2 (p.take 2) (q.take 2) = dist2 p q := by
  simp only [dist2, (coord_take_two p).1, (coord_take_two p).2,
    (coord_take_two q).1, (coord_take_two q).2]

lemma draw_line_take_two (p q : List ℚ) (d : ℕ) :
    draw_line (p.take 2) (q.take 2) d = draw_line p q d := by
  simp only [draw_line, (coord_take_two p).1, (coord_take_two p).2,
    (coord_take_two q).1, (coord_take_two q).2]

lemma isEmpty_take_two (l : List ℚ) : (l.take 2).isEmpty = l.isEmpty := by
  cases l <;> simp

lemma getD_map_take_two (c : List Point) (j : ℕ) :
    (c.map fun p => p.take 2).getD j [] = (c.getD j []).take 2 := by
  induction c generalizing j with
  | nil => simp
  | cons p rest ih =>
    cases j with
    | zero => simp
    | succ j' => simpa using ih j'

lemma find_nearest_go_take_two (point : Point) (processed : List ℕ) :
    ∀ (l : List Point) (pos : ℕ) (acc : Option ℕ × ℚ),
      find_nearest_go (point.take 2) processed (l.map fun p => p.take 2) pos acc =
      find_nearest_go point processed l pos acc := by
  intro l
  induction l with
  | nil => intro pos acc; rfl
  | cons p rest ih =>
    intro pos acc
    simp only [List.map_cons, find_nearest_go, dist2_take_two]
    split
    · exact ih _ _
    · split
      · exact ih _ _
      · exact ih _ _

lemma find_nearest_take_two (pt : Point) (c : List Point) (pr : List ℕ) :
    find_nearest (pt.take 2) (c.map fun p => p.take 2) pr = find_nearest pt c pr := by
  unfold find_nearest
  rw [find_nearest_go_take_two]

lemma trace_loop_take_two (c : List Point) :
    ∀ (fuel : ℕ) (s : LoopState),
      trace_loop (c.map fun p => p.take 2) fuel ⟨s.path, s.point.take 2, s.processed⟩ =
      ⟨(trace_loop c fuel s).path, (trace_loop c fuel s).point.take 2,
       (trace_loop c fuel s).processed⟩ := by
  intro fuel
  induction fuel with
  | zero => intro s; rfl
  | succ n ih =>
    intro s
    simp only [trace_loop, isEmpty_take_two, find_nearest_take_two]
    by_cases hemp : s.point.isEmpty
    · rw [if_pos hemp, if_pos hemp]
    · rw [if_neg hemp, if_neg hemp]
      cases hr : find_nearest s.point c s.processed with
      | none => simp [pyEqFalse]
      | some j =>
        by_cases hj : j = 0
        · simp [pyEqFalse, hj]
        · simp only [pyEqFalse, Option.getD_some, beq_iff_eq, if_neg hj,
            getD_map_take_two, draw_line_take_two]
          exact ih ⟨s.path ++ draw_line s.point (c.getD j []) divider,
            c.getD j [], s.processed ++ [j]⟩

lemma run_loop_take_two (c : List Point) :
    run_loop (c.map fun p => p.take 2) =
      ⟨(run_loop c).path, (run_loop c).point.take 2, (run_loop c).processed⟩ := by
  unfold run_loop
  rw [List.length_map]
  have hinit : init_state (c.map fun p => p.take 2) =
      ⟨(init_state c).path, (init_state c).point.take 2, (init_state c).processed⟩ := by
    simp only [init_state]
    rw [getD_map_take_two]
  rw [hinit]
  exact trace_loop_take_two c _ _

lemma extract_contour_take_two (c : List Point) :
    extract_contour (c.map fun p => p.take 2) = extract_contour c := by
  unfold extract_contour
  rw [List.length_map, run_loop_take_two, getD_map_take_two, draw_line_take_two]

lemma extract_contour_path_len {c : List Point} {path : List Point}
    (h : extract_contour c = some path) : ∀ p ∈ path, p.length = 2 := by
  unfold extract_contour at h
  by_cases hc : c.length = 0
  · rw [if_pos hc] at h; exact absurd h (by simp)
  · rw [if_neg hc] at h
    simp only [Option.some.injEq] at h
    rw [← h]
    intro p hp
    rcases List.mem_append.mp hp with hp | hp
    · exact (stateInv_run_loop c).2.2.2.2 p hp
    · exact draw_line_mem hp

/-! ### The claims -/

/-- Claim C1: the spec (and the docstring of `__draw_line` itself) promises
`divider` points on the straight segment from `p1` towards `p2`, excluding
`p1` and including `p2`, the last being exactly `p2`.  The code computes
`delta = (p1 - p2) / divider` and adds it to `p1`, so for `p1 = (0,0)`,
`p2 = (1,0)`, `divider = 2` it returns `(-1/2, 0), (-1, 0)`: the points head
away from `p2`, the last one is `2*p1 - p2`, not `p2`. -/
theorem draw_line_reverses_direction :
    draw_line [0, 0] [1, 0] 2 = [[-(1 / 2 : ℚ), 0], [-1, 0]] ∧
    draw_line [0, 0] [1, 0] 2 ≠ [[(1 / 2 : ℚ), 0], [1, 0]] ∧
    (draw_line [0, 0] [1, 0] 2).getLast? ≠ some [1, 0] := by
  refine ⟨?_, ?_, ?_⟩ <;> norm_num [draw_line, coord, List.range_succ]

/-- Claim C2: on the unit-square corners `[(0,0), (1,0), (1,1), (0,1)]` the
tour does visit the corners in input order (`processed = [0, 1, 2, 3]`) and
produces 8 points, but because of the reversed interpolation direction of
`__draw_line` the produced path is the pointwise reflection
`[(-1/2,0), (-1,0), (1,-1/2), (1,-1), (3/2,1), (2,1), (0,3/2), (0,2)]`, not the
path `[(1/2,0), (1,0), (1,1/2), (1,1), (1/2,1), (0,1), (0,1/2), (0,0)]` the
spec expects. -/
theorem square_scenario_reflected_path :
    (run_loop [[0, 0], [1, 0], [1, 1], [0, 1]]).processed = [0, 1, 2, 3] ∧
    extract_contour [[0, 0], [1, 0], [1, 1], [0, 1]] =
      some [[-(1 / 2 : ℚ), 0], [-1, 0], [1, -(1 / 2 : ℚ)], [1, -1],
            [(3 / 2 : ℚ), 1], [2, 1], [0, (3 / 2 : ℚ)], [0, 2]] ∧
    extract_contour [[0, 0], [1, 0], [1, 1], [0, 1]] ≠
      some [[(1 / 2 : ℚ), 0], [1, 0], [1, (1 / 2 : ℚ)], [1, 1],
            [(1 / 2 : ℚ), 1], [0, 1], [0, (1 / 2 : ℚ)], [0, 0]] := by
  refine ⟨?_, ?_, ?_⟩ <;>
    norm_num [extract_contour, run_loop, trace_loop, init_state, find_nearest,
      find_nearest_go, dist2, coord, draw_line, pyEqFalse, divider,
      List.range_succ]

/-- Claim C3: for every nonempty contour the result is the loop's path
followed, unconditionally and with no distance check, by exactly `divider`
points produced by `__draw_line` from the final `point` back to
`contour[0]`. -/
theorem closing_segment_appended_unconditionally (c : List Point) (hc : c ≠ []) :
    extract_contour c =
      some ((run_loop c).path ++
        draw_line (run_loop c).point (c.getD 0 []) divider) ∧
    (draw_line (run_loop c).point (c.getD 0 []) divider).length = divider := by
  constructor
  · unfold extract_contour
    rw [if_neg (by simpa using hc)]
  · exact draw_line_length _ _ _

theorem closing_segment_appended_unconditionally_witness :
    extract_contour [[(0 : ℚ), 0]] =
      some ((run_loop [[(0 : ℚ), 0]]).path ++
        draw_line (run_loop [[(0 : ℚ), 0]]).point ([[(0 : ℚ), 0]].getD 0 []) divider) ∧
    (draw_line (run_loop [[(0 : ℚ), 0]]).point ([[(0 : ℚ), 0]].getD 0 []) divider).length =
      divider :=
  closing_segment_appended_unconditionally [[(0 : ℚ), 0]] (by simp)

/-- Claim C4: along the final `processed` list (the original tour nodes, in
visit order) every consecutive pair is within squared Euclidean distance 8
(Euclidean distance √8); moreover `__find_nearest` never selects any index
whose squared distance from the current point exceeds 8 - if the minimum
distance exceeds √8 it returns the sentinel instead, halting the tour. -/
theorem consecutive_tour_nodes_within_threshold (c : List Point) :
    List.Chain' (fun i j => dist2 (c.getD i []) (c.getD j []) ≤ 8)
      (run_loop c).processed ∧
    ∀ (pt : Point) (pr : List ℕ) (j : ℕ), find_nearest pt c pr = some j →
      dist2 pt (c.getD j []) ≤ 8 := by
  refine ⟨(stateInv_run_loop c).2.2.1, ?_⟩
  intro pt pr j h
  exact (find_nearest_spec h).2.2.1

theorem consecutive_tour_nodes_within_threshold_witness :
    List.Chain'
      (fun i j => dist2 ([[0, 0], [1, 0], [1, 1], [0, 1]].getD i [])
        ([[0, 0], [1, 0], [1, 1], [0, 1]].getD j []) ≤ 8)
      (run_loop [[0, 0], [1, 0], [1, 1], [0, 1]]).processed ∧
    dist2 [0, 0] ([[0, 0], [1, 0], [1, 1], [0, 1]].getD 1 []) ≤ 8 :=
  ⟨(consecutive_tour_nodes_within_threshold [[0, 0], [1, 0], [1, 1], [0, 1]]).1,
   (consecutive_tour_nodes_within_threshold [[0, 0], [1, 0], [1, 1], [0, 1]]).2
     [0, 0] [0] 1 (by norm_num [find_nearest, find_nearest_go, dist2, coord])⟩

/-- Claim C5: if the contour splits into a cluster `C0` containing index 0 and
a remainder, every cross pair being farther apart than √8 (squared distance
more than 8), then every index the tour visits satisfies `C0`, and the path
closes immediately back to `contour[0]`: the result is the traced path plus
the unconditional closing segment, no other cluster's point ever becoming a
tour node. -/
theorem only_cluster_of_first_point_traced (c : List Point) (C0 : ℕ → Bool)
    (hc : c ≠ []) (h0 : C0 0 = true)
    (hsep : ∀ i, i < c.length → ∀ j, j < c.length → C0 i = true → C0 j = false →
      8 < dist2 (c.getD i []) (c.getD j [])) :
    (∀ i ∈ (run_loop c).processed, C0 i = true) ∧
    extract_contour c =
      some ((run_loop c).path ++
        draw_line (run_loop c).point (c.getD 0 []) divider) := by
  constructor
  · exact run_loop_cluster c C0 hc h0 hsep
  · unfold extract_contour
    rw [if_neg (by simpa using hc)]

theorem only_cluster_of_first_point_traced_witness :
    (∀ i ∈ (run_loop [[(0 : ℚ), 0], [1, 0], [10, 10], [11, 10]]).processed,
      (fun i => decide (i < 2)) i = true) ∧
    extract_contour [[(0 : ℚ), 0], [1, 0], [10, 10], [11, 10]] =
      some ((run_loop [[(0 : ℚ), 0], [1, 0], [10, 10], [11, 10]]).path ++
        draw_line (run_loop [[(0 : ℚ), 0], [1, 0], [10, 10], [11, 10]]).point
          ([[(0 : ℚ), 0], [1, 0], [10, 10], [11, 10]].getD 0 []) divider) :=
  only_cluster_of_first_point_traced [[(0 : ℚ), 0], [1, 0], [10, 10], [11, 10]]
    (fun i => decide (i < 2)) (by simp) (by norm_num)
    (by
      intro i hi j hj hCi hCj
      norm_num at hi hj
      interval_cases i <;> interval_cases j <;>
        norm_num [dist2, coord] at hCi hCj ⊢)

/-- Claim C6: a successful `__find_nearest` call returns an unvisited in-range
index of minimal squared Euclidean distance to the query point, and on ties
the lowest such index: every strictly smaller unvisited index is strictly
farther away. -/
theorem find_nearest_selects_minimum_lowest_index (pt : Point) (c : List Point)
    (pr : List ℕ) (j : ℕ) (h : find_nearest pt c pr = some j) :
    j < c.length ∧ j ∉ pr ∧
    (∀ k, k < c.length → k ∉ pr →
      dist2 pt (c.getD j []) ≤ dist2 pt (c.getD k [])) ∧
    (∀ k, k < j → k ∉ pr →
      dist2 pt (c.getD j []) < dist2 pt (c.getD k [])) := by
  obtain ⟨h1, h2, -, h4, h5⟩ := find_nearest_spec h
  exact ⟨h1, h2, h4, h5⟩

theorem find_nearest_selects_minimum_lowest_index_witness :
    1 < [[(0 : ℚ), 0], [1, 0], [1, 1], [0, 1]].length ∧ 1 ∉ [0] ∧
    (∀ k, k < [[(0 : ℚ), 0], [1, 0], [1, 1], [0, 1]].length → k ∉ [0] →
      dist2 [0, 0] ([[(0 : ℚ), 0], [1, 0], [1, 1], [0, 1]].getD 1 []) ≤
        dist2 [0, 0] ([[(0 : ℚ), 0], [1, 0], [1, 1], [0, 1]].getD k [])) ∧
    (∀ k, k < 1 → k ∉ [0] →
      dist2 [0, 0] ([[(0 : ℚ), 0], [1, 0], [1, 1], [0, 1]].getD 1 []) <
        dist2 [0, 0] ([[(0 : ℚ), 0], [1, 0], [1, 1], [0, 1]].getD k [])) :=
  find_nearest_selects_minimum_lowest_index [0, 0]
    [[(0 : ℚ), 0], [1, 0], [1, 1], [0, 1]] [0] 1
    (by norm_num [find_nearest, find_nearest_go, dist2, coord])

/-- Claim C7: an empty contour produces no path at all - the empty-boundary
condition is signalled as the `none` result (the script's warning-and-skip
`continue`), not by raising an exception, and no output record is written. -/
theorem empty_contour_yields_no_path : extract_contour [] = none := rfl

/-- Claim C8: the path construction is a pure function of the contour - two
runs on the same contour in the same order produce identical paths. -/
theorem path_orderer_deterministic (c₁ c₂ : List Point) (h : c₁ = c₂) :
    extract_contour c₁ = extract_contour c₂ := by rw [h]

theorem path_orderer_deterministic_witness :
    extract_contour [[(0 : ℚ), 0]] = extract_contour [[(0 : ℚ), 0]] :=
  path_orderer_deterministic [[(0 : ℚ), 0]] [[(0 : ℚ), 0]] rfl

/-- Claim C9: every point of any produced path has exactly 2 coordinates, and
the whole computation reads only the first two coordinates of each contour
point: truncating every input point to its first two coordinates leaves the
output unchanged, so higher coordinates are silently dropped. -/
theorem path_points_have_two_coordinates (c : List Point) :
    (∀ path, extract_contour c = some path → ∀ p ∈ path, p.length = 2) ∧
    extract_contour (c.map fun p => p.take 2) = extract_contour c :=
  ⟨fun _ h => extract_contour_path_len h, extract_contour_take_two c⟩

theorem path_points_have_two_coordinates_witness :
    (∀ p ∈ [[(0 : ℚ), 0], [0, 0]], p.length = 2) ∧
    extract_contour ([[(0 : ℚ), 0, 5]].map fun p => p.take 2) =
      extract_contour [[(0 : ℚ), 0, 5]] :=
  ⟨(path_points_have_two_coordinates [[(0 : ℚ), 0, 5]]).1 [[(0 : ℚ), 0], [0, 0]]
      (by norm_num [extract_contour, run_loop, trace_loop, init_state,
        find_nearest, find_nearest_go, dist2, coord, draw_line, pyEqFalse,
        divider, List.range_succ]),
   (path_points_have_two_coordinates [[(0 : ℚ), 0, 5]]).2⟩

/-- Claim C10: whenever index 0 is already marked processed - as it is from
the start of the loop onwards, `0` being a member of every `processed` list
the loop ever builds - `__find_nearest` can never return index 0, so the
call site's Python test `False == nearest_pos` (true on `False` but also on
the integer 0) is equivalent to an exact sentinel test. -/
theorem find_nearest_never_returns_zero_sentinel (c : List Point) (pt : Point)
    (pr : List ℕ) (h0 : 0 ∈ pr) :
    find_nearest pt c pr ≠ some 0 ∧
    (pyEqFalse (find_nearest pt c pr) = true ↔ find_nearest pt c pr = none) ∧
    0 ∈ (run_loop c).processed := by
  have hns : find_nearest pt c pr ≠ some 0 := by
    intro h
    exact absurd h0 (find_nearest_spec h).2.1
  refine ⟨hns, ?_, (stateInv_run_loop c).2.2.2.1⟩
  cases hr : find_nearest pt c pr with
  | none => simp [pyEqFalse]
  | some j =>
    have hj : j ≠ 0 := by rintro rfl; exact hns hr
    simp [pyEqFalse, hj]

theorem find_nearest_never_returns_zero_sentinel_witness :
    find_nearest [0, 0] [[(0 : ℚ), 0], [1, 0]] [0] ≠ some 0 ∧
    (pyEqFalse (find_nearest [0, 0] [[(0 : ℚ), 0], [1, 0]] [0]) = true ↔
      find_nearest [0, 0] [[(0 : ℚ), 0], [1, 0]] [0] = none) ∧
    0 ∈ (run_loop [[(0 : ℚ), 0], [1, 0]]).processed :=
  find_nearest_never_returns_zero_sentinel [[(0 : ℚ), 0], [1, 0]] [0, 0] [0]
    (by simp)

end ExtractContours
